import Mathlib

/-
Shallow embedding of the screenshot-capture core of the `aws-capture-auto`
repository (src/capture_automation.py, src/aws_login.py) together with
theorems settling the specification claims.

Conventions of the embedding:
- Python strings are modelled as Lean `String` over their character lists.
  `str.isalnum` is Unicode-aware and is modelled exactly on the code points
  below 0x100 (see `pyIsAlnum`); `str.lower` and the whitespace classes of
  `str.strip` are modelled by their ASCII behaviour, which only weakens,
  never strengthens, what is proved of the strings the claims exercise.
- Fallible Python code is modelled with `Except` / `Option`; a caught
  exception corresponds to taking the error branch of the model.
- The Playwright world (navigation, selector waits, screenshot writes, the
  wall clock) is an explicit environment of oracles passed to the model.
- Python object mutation in the batch loop is modelled with an explicit heap
  (`Nat → Capture`): the caller holds indices (references) into the heap.
-/

namespace CaptureAuto

/-- Validation failures of the `Capture` pydantic model, one per validator
(`validate_url`, `validate_selector`, `validate_viewport_size`,
`validate_filename`). -/
inductive VErr
  | invalidSelector
  | invalidUrl
  | invalidViewport
  | invalidFilename
deriving DecidableEq

/-- The double-quote character, written by code point. -/
def quoteChar : Char := Char.ofNat 34

/-- The single-quote character, written by code point. -/
def aposChar : Char := Char.ofNat 39

/-- Python `str.strip()` (no argument): drop leading and trailing whitespace. -/
def pyStrip (s : String) : String :=
  ⟨((s.data.dropWhile Char.isWhitespace).reverse.dropWhile Char.isWhitespace).reverse⟩

/-- The characters `'<>"\''` rejected by `validate_selector`
(capture_automation.py line 32). -/
def badSelectorChars : List Char := ['<', '>', quoteChar, aposChar]

/-- `Capture.validate_selector` (capture_automation.py lines 25-34):
`None` passes through; a selector that strips to the empty string is
normalized to `None`; a selector containing any of `<`, `>`, `"`, `'`
raises, i.e. fails with `InvalidSelector`; anything else is returned
unchanged. -/
def validate_selector : Option String → Except VErr (Option String)
  | none => Except.ok none
  | some v =>
    if (pyStrip v).data.isEmpty then Except.ok none
    else if badSelectorChars.any (fun c => v.data.contains c) then
      Except.error VErr.invalidSelector
    else Except.ok (some v)

/-- Characters allowed in a URL scheme by `urllib.parse`
(letters, digits, `+`, `-`, `.`). -/
def schemeCharOk (c : Char) : Bool :=
  c.isAlpha || c.isDigit || c == '+' || c == '-' || c == '.'

/-- Split a character list at the first `':'`, returning the parts before
and after it, or `none` when there is no colon.  Models `url.find(':')`. -/
def splitAtColon : List Char → Option (List Char × List Char)
  | [] => none
  | c :: cs =>
    if c = ':' then some ([], cs)
    else (splitAtColon cs).map (fun p => (c :: p.1, p.2))

/-- The scheme-splitting step of `urllib.parse.urlsplit`: if the text before
the first colon is nonempty, starts with a letter and consists of scheme
characters, it is the (lower-cased) scheme; otherwise there is no scheme and
the URL is left whole. -/
def splitScheme (l : List Char) : List Char × List Char :=
  match splitAtColon l with
  | some (pre, post) =>
    match pre with
    | [] => ([], l)
    | c0 :: _ =>
      if c0.isAlpha && pre.all schemeCharOk then (pre.map Char.toLower, post)
      else ([], l)
  | none => ([], l)

/-- The input normalization of `urllib.parse.urlsplit`: strip leading
C0-control-or-space characters (only the left side is stripped), then
remove every tab, CR and LF. -/
def urlClean (l : List Char) : List Char :=
  (l.dropWhile (fun c => c ≤ ' ')).filter
    (fun c => !(c == '\t' || c == '\n' || c == '\r'))

/-- `urllib.parse.urlparse` restricted to the two components
`validate_url` reads: the `(scheme, netloc)` pair.  A netloc with a
mismatched square bracket raises `ValueError`, modelled as `Except.error`
(the deeper validation of a well-bracketed IPv6 host is not modelled). -/
def urlparseSN (s : String) : Except Unit (List Char × List Char) :=
  let l := urlClean s.data
  let p := splitScheme l
  match p.2 with
  | '/' :: '/' :: r =>
    let netloc := r.takeWhile (fun c => !(c == '/' || c == '?' || c == '#'))
    if netloc.contains '[' != netloc.contains ']' then Except.error ()
    else Except.ok (p.1, netloc)
  | _ => Except.ok (p.1, [])

/-- `Capture.validate_url` (capture_automation.py lines 36-45): parse the
URL; if parsing raises, or either of `scheme`/`netloc` is empty
(`not all([result.scheme, result.netloc])`), fail with `InvalidUrl`;
otherwise return the input unchanged. -/
def validate_url (v : String) : Except VErr String :=
  match urlparseSN v with
  | Except.error _ => Except.error VErr.invalidUrl
  | Except.ok (sch, nl) =>
    if sch.isEmpty || nl.isEmpty then Except.error VErr.invalidUrl
    else Except.ok v

/-- Spec-side predicate for claim C9, from the spec's words: the URL string
"parses to both a scheme and a host", i.e. `urlparse` succeeds and returns a
nonempty scheme and a nonempty network-location (host) component. -/
def hasSchemeAndHost (s : String) : Bool :=
  match urlparseSN s with
  | Except.error _ => false
  | Except.ok (sch, nl) => !sch.isEmpty && !nl.isEmpty

/-- Python decimal digit test. -/
def pyDigit (c : Char) : Bool := '0' ≤ c && c ≤ '9'

/-- Tail of the digit grammar of Python `int()`: digits with single
underscores allowed only between digits. -/
def digitsCore : List Char → Bool
  | [] => true
  | '_' :: [] => false
  | '_' :: c :: cs => pyDigit c && digitsCore cs
  | c :: cs => pyDigit c && digitsCore cs

/-- The digit grammar of Python `int()`: a nonempty digit sequence with
single underscores allowed between digits. -/
def digitsValid : List Char → Bool
  | [] => false
  | c :: cs => pyDigit c && digitsCore cs

/-- Numeric value of a digit sequence, skipping grouping underscores. -/
def digitsVal (l : List Char) : Nat :=
  l.foldl (fun a c => if c = '_' then a else a * 10 + (c.toNat - 48)) 0

/-- Python `int(str)`: strip surrounding whitespace, accept an optional
sign followed by digits (with grouping underscores); anything else raises
`ValueError`, modelled as `none`. -/
def pyInt (s : String) : Option Int :=
  let t := ((s.data.dropWhile Char.isWhitespace).reverse.dropWhile Char.isWhitespace).reverse
  match t with
  | '+' :: rest => if digitsValid rest then some (Int.ofNat (digitsVal rest)) else none
  | '-' :: rest => if digitsValid rest then some (-(Int.ofNat (digitsVal rest))) else none
  | _ => if digitsValid t then some (Int.ofNat (digitsVal t)) else none

/-- Python `str.split(sep)` for a one-character separator (`"".split` of the
empty string yields `[""]`). -/
def splitOnChar (sep : Char) : List Char → List (List Char)
  | [] => [[]]
  | c :: cs =>
    if c = sep then [] :: splitOnChar sep cs
    else
      match splitOnChar sep cs with
      | [] => [[c]]
      | p :: ps => (c :: p) :: ps

/-- The shapes a raw `viewport_size` value can take when it reaches the
`pre=True` validator: `None`, a string, a 2-element list/tuple of integers,
a 2-element list/tuple containing a non-integer, or any other shape. -/
inductive ViewportInput
  | vnone
  | vstr (s : String)
  | vpair (w h : Int)
  | vpairBad
  | vother
deriving DecidableEq

/-- `Capture.validate_viewport_size` (capture_automation.py lines 47-66):
`None` passes; a string is lower-cased, split on `x` and both parts fed to
`int()` — exactly two integer parts succeed (with no positivity check),
anything else raises `ValueError`, i.e. `InvalidViewport`; a 2-element
list/tuple must hold two positive integers; every other shape fails. -/
def validate_viewport_size : ViewportInput → Except VErr (Option (Int × Int))
  | ViewportInput.vnone => Except.ok none
  | ViewportInput.vstr s =>
    match (splitOnChar 'x' (s.data.map Char.toLower)).map (fun part => pyInt ⟨part⟩) with
    | [some w, some h] => Except.ok (some (w, h))
    | _ => Except.error VErr.invalidViewport
  | ViewportInput.vpair w h =>
    if 0 < w && 0 < h then Except.ok (some (w, h))
    else Except.error VErr.invalidViewport
  | ViewportInput.vpairBad => Except.error VErr.invalidViewport
  | ViewportInput.vother => Except.error VErr.invalidViewport

/-- Python `str.endswith('.png')`. -/
def hasPngSuffix (v : String) : Bool :=
  v.data.reverse.take 4 == ['g', 'n', 'p', '.']

/-- Python `str.isalnum` for one character.  It is Unicode-aware; the model
is exact on the Basic Latin and Latin-1 blocks (code points below 0x100),
whose alphanumeric code points are 48-57, 65-90, 97-122 (covered by
`Char.isAlphanum`) together with 170, 178-179, 181, 185-186, 188-190,
192-214, 216-246 and 248-255.  Alphanumerics of higher Unicode blocks,
which no string in this development contains, are not modelled. -/
def pyIsAlnum (c : Char) : Bool :=
  c.isAlphanum || c.toNat == 170 || (178 ≤ c.toNat && c.toNat ≤ 179) || c.toNat == 181 ||
    (185 ≤ c.toNat && c.toNat ≤ 186) || (188 ≤ c.toNat && c.toNat ≤ 190) ||
    (192 ≤ c.toNat && c.toNat ≤ 214) || (216 ≤ c.toNat && c.toNat ≤ 246) ||
    (248 ≤ c.toNat && c.toNat ≤ 255)

/-- Characters accepted by `validate_filename`:
`c.isalnum() or c in '._-'`. -/
def filenameCharOk (c : Char) : Bool :=
  pyIsAlnum c || c == '.' || c == '_' || c == '-'

/-- `Capture.validate_filename` (capture_automation.py lines 75-83):
`None` passes through; otherwise `.png` is appended when missing and every
character of the adjusted name must be alphanumeric or one of `._-`, else
the validator fails with `InvalidFilename`. -/
def validate_filename : Option String → Except VErr (Option String)
  | none => Except.ok none
  | some v =>
    let v' := if hasPngSuffix v then v else v ++ ".png"
    if v'.data.all filenameCharOk then Except.ok (some v')
    else Except.error VErr.invalidFilename

/-- Spec-side character set of claim C3: `[A-Za-z0-9._-]`, written by
explicit code-point ranges (65-90 is `A`-`Z`, 97-122 is `a`-`z`,
48-57 is `0`-`9`). -/
def specGoodChar (c : Char) : Bool :=
  (c.val ≥ 65 && c.val ≤ 90) || (c.val ≥ 97 && c.val ≤ 122) ||
    (c.val ≥ 48 && c.val ≤ 57) || c == '.' || c == '_' || c == '-'

/-- Spec-side suffix adjustment of claim C3: the same name with `.png`
appended when the suffix is missing. -/
def specAdjust (v : String) : String :=
  if hasPngSuffix v then v else v ++ ".png"

/-- The `Capture` pydantic model (capture_automation.py lines 15-23) after
validation, with the two fields the execution fills in
(`filename` when absent, `screenshot_path` on success). -/
structure Capture where
  url : String
  wait_time : Nat
  selector : Option String
  fullpage : Bool
  filename : Option String
  viewport_size : Option (Int × Int)
  screenshot_path : Option String
deriving DecidableEq

instance : Inhabited Capture :=
  ⟨{ url := "", wait_time := 5, selector := none, fullpage := true, filename := none,
     viewport_size := none, screenshot_path := none }⟩

/-- A wall-clock reading at second resolution, as consumed by
`datetime.now().strftime(...)`. -/
structure PyDateTime where
  year : Nat
  month : Nat
  day : Nat
  hour : Nat
  minute : Nat
  second : Nat
deriving DecidableEq

/-- Decimal digits of `n`, most significant first (`fuel` bounds the
recursion and `n + 1` is always enough). -/
def natCharsAux : Nat → Nat → List Char
  | 0, _ => []
  | fuel + 1, n =>
    if n < 10 then [Nat.digitChar n]
    else natCharsAux fuel (n / 10) ++ [Nat.digitChar (n % 10)]

/-- Decimal representation of a natural number, as `str(n)` renders it. -/
def natChars (n : Nat) : List Char := natCharsAux (n + 1) n

/-- Zero-pad the decimal representation of `n` to width `w`, as the
`strftime` directives `%Y %m %d %H %M %S` do. -/
def padChars (w n : Nat) : List Char :=
  List.replicate (w - (natChars n).length) '0' ++ natChars n

/-- `datetime.strftime("%Y%m%d_%H%M%S")`. -/
def fmtTs (t : PyDateTime) : String :=
  ⟨padChars 4 t.year ++ padChars 2 t.month ++ padChars 2 t.day ++ ['_'] ++
    padChars 2 t.hour ++ padChars 2 t.minute ++ padChars 2 t.second⟩

/-- `datetime.strftime("%Y-%m-%d %H:%M:%S")`, used for the report's
"Captured at" stamp. -/
def fmtRender (t : PyDateTime) : String :=
  ⟨padChars 4 t.year ++ ['-'] ++ padChars 2 t.month ++ ['-'] ++ padChars 2 t.day ++ [' '] ++
    padChars 2 t.hour ++ [':'] ++ padChars 2 t.minute ++ [':'] ++ padChars 2 t.second⟩

/-- `str(n)` for a natural number. -/
def natToStr (n : Nat) : String := ⟨natChars n⟩

/-- `str(i)` for a Python integer. -/
def intStr (i : Int) : String :=
  if i < 0 then "-" ++ natToStr i.natAbs else natToStr i.natAbs

/-- The Python object heap restricted to `Capture` objects: callers hold
references (indices) into it; mutation of a field mutates the heap entry. -/
abbrev Heap := Nat → Capture

/-- Mutate the object at reference `i`. -/
def hset (h : Heap) (i : Nat) (c : Capture) : Heap :=
  fun j => if j = i then c else h j

/-- Python truthiness of an optional string (`None` and `""` are falsy),
as used by `if not capture.filename:` and `if capture.selector:`. -/
def optTruthy : Option String → Bool
  | none => false
  | some s => !s.data.isEmpty

/-- Filename resolution of the capture loops (capture_automation.py lines
210-213 and 382-385): a falsy `filename` is replaced by
`f"screenshot_{timestamp}.png"` with `timestamp = now().strftime("%Y%m%d_%H%M%S")`. -/
def resolveFilename (fn : Option String) (t : PyDateTime) : String :=
  match fn with
  | some f => if f.data.isEmpty then "screenshot_" ++ fmtTs t ++ ".png" else f
  | none => "screenshot_" ++ fmtTs t ++ ".png"

/-- Oracles for one iteration of the batch loop: whether `page.goto`
succeeds, whether `wait_for_selector` finds the element within its 10 s
timeout, whether the `page.screenshot` write succeeds, and the clock value
read when the filename is synthesized. -/
structure StepEnv where
  navOk : Bool
  selFound : Bool
  shotOk : Bool
  now : PyDateTime

/-- State after running (a prefix of) the batch loop of
`CaptureAutomation.captures`: the heap, the `capture_results` references
appended so far, the warnings printed, the screenshot files written in
order, and whether the loop ran to completion (`ok = false` models an
uncaught exception propagating out of the loop). -/
structure BatchOut where
  heap : Heap
  res : List Nat
  warns : List Bool
  writes : List String
  ok : Bool

/-- The batch loop of `CaptureAutomation.captures` (capture_automation.py
lines 349-403), processing the requests strictly in input order.  `k` is
the batch position (index into the oracle stream).  A `goto` failure
propagates (aborts); a selector-wait failure is caught and recorded as a
warning only; a screenshot failure propagates after `filename` was already
mutated; on success `filename` and then `screenshot_path` are set on the
heap object and its reference is appended to the results. -/
def runBatchAux (dir : String) (env : Nat → StepEnv) : Nat → Heap → List Nat → BatchOut
  | _, h, [] => { heap := h, res := [], warns := [], writes := [], ok := true }
  | k, h, idx :: rest =>
    if (env k).navOk = false then
      { heap := h, res := [], warns := [], writes := [], ok := false }
    else
      let c := h idx
      let warn := optTruthy c.selector && !(env k).selFound
      let fn := resolveFilename c.filename (env k).now
      let c1 : Capture := { c with filename := some fn }
      let h1 := hset h idx c1
      let sp := dir ++ "/" ++ fn
      if (env k).shotOk = false then
        { heap := h1, res := [], warns := [warn], writes := [], ok := false }
      else
        let c2 : Capture := { c1 with screenshot_path := some sp }
        let h2 := hset h1 idx c2
        let r := runBatchAux dir env (k + 1) h2 rest
        { heap := r.heap, res := idx :: r.res, warns := warn :: r.warns,
          writes := sp :: r.writes, ok := r.ok }

/-- One rendered card of the result HTML (the `capture_template` fields of
capture_automation.py lines 319-341). -/
structure ReportSection where
  url : String
  wait_time : Nat
  selector : String
  fullpage : String
  viewport : String
  filename : String
  img_src : String
  timestamp : String
deriving DecidableEq

/-- `pathlib.Path(p).name`: the part of the path after the last slash. -/
def pathName (p : String) : String :=
  ⟨(p.data.reverse.takeWhile (fun c => c ≠ '/')).reverse⟩

/-- Rendering of one capture into its report card (capture_automation.py
lines 410-423).  The image reference is the hard-coded string
`f"screenshots/{Path(capture.screenshot_path).name}"`. -/
def renderSection (ts : String) (c : Capture) : ReportSection :=
  { url := c.url
    wait_time := c.wait_time
    selector := if optTruthy c.selector then c.selector.getD "" else "なし"
    fullpage := if c.fullpage then "はい" else "いいえ"
    viewport := match c.viewport_size with
      | some wh => intStr wh.1 ++ "x" ++ intStr wh.2
      | none => "デフォルト"
    filename := c.filename.getD "None"
    img_src := "screenshots/" ++ pathName (c.screenshot_path.getD "")
    timestamp := ts }

/-- Observable file-system events of a batch run: each screenshot write,
and the single write of `capture_results.html`. -/
inductive BEvent
  | shotWrite (path : String)
  | reportWrite (sections : List ReportSection)
deriving DecidableEq

/-- Whether an event is the report write. -/
def isReportWrite : BEvent → Bool
  | BEvent.reportWrite _ => true
  | BEvent.shotWrite _ => false

/-- Result of `CaptureAutomation.captures`: the final heap, the returned
`capture_results` list (`none` when an exception propagated), the printed
warnings, and the ordered trace of file writes. -/
structure CapturesOut where
  heap : Heap
  result : Option (List Nat)
  warns : List Bool
  trace : List BEvent

/-- `CaptureAutomation.captures` (capture_automation.py lines 231-433):
run the batch loop, then — only if it completed — render one card per
result, in order, reading each object's final state, and write the report
file once; the report's render loop reads the clock once per card
(`rnow`). -/
def captures (dir : String) (env : Nat → StepEnv) (rnow : Nat → PyDateTime)
    (h : Heap) (input : List Nat) : CapturesOut :=
  let b := runBatchAux dir env 0 h input
  if b.ok then
    let sections := b.res.enum.map (fun p => renderSection (fmtRender (rnow p.1)) (b.heap p.2))
    { heap := b.heap, result := some b.res, warns := b.warns,
      trace := b.writes.map BEvent.shotWrite ++ [BEvent.reportWrite sections] }
  else
    { heap := b.heap, result := none, warns := b.warns,
      trace := b.writes.map BEvent.shotWrite }

/-- Oracles for a single `CaptureAutomation.capture` call: navigation,
unbounded selector wait, screenshot write, browser close, and the clock. -/
structure SingleEnv where
  navOk : Bool
  selOk : Bool
  shotOk : Bool
  closeOk : Bool
  now : PyDateTime

/-- Outcome of a single `CaptureAutomation.capture` call: the returned
path, or the stage whose exception propagated. -/
inductive SingleResult
  | ok (path : String)
  | exn (stage : String)
deriving DecidableEq

/-- `CaptureAutomation.capture` (capture_automation.py lines 163-229):
goto, unbounded (uncaught) selector wait, sleep, filename synthesis,
screenshot write, then `screenshot_path` assignment and browser close.
Returns the outcome, the final state of the (mutated) `Capture` object, and
the screenshot file write that was performed, if any. -/
def capture (dir : String) (env : SingleEnv) (c : Capture) :
    SingleResult × Capture × Option String :=
  if env.navOk = false then (SingleResult.exn "goto", c, none)
  else if optTruthy c.selector && !env.selOk then (SingleResult.exn "wait_for_selector", c, none)
  else
    let fn := resolveFilename c.filename env.now
    let c1 : Capture := { c with filename := some fn }
    let sp := dir ++ "/" ++ fn
    if env.shotOk = false then (SingleResult.exn "screenshot", c1, none)
    else
      let c2 : Capture := { c1 with screenshot_path := some sp }
      if env.closeOk = false then (SingleResult.exn "close", c2, some sp)
      else (SingleResult.ok sp, c2, some sp)

/-- Oracles for `CaptureAutomation.login`: whether the wait for the manual
browser close raises (caught either way), the context's storage state at
close, whether serializing it to the session file succeeds, and whether the
final `context.close()` raises (caught either way). -/
structure LoginEnv where
  waitCloseOk : Bool
  storageState : String
  saveOk : Bool
  closeOk : Bool
deriving DecidableEq

/-- Result of `CaptureAutomation.login`: the returned value and the content
written to the session file (if any). -/
structure LoginOut where
  result : Option String
  written : Option String
deriving DecidableEq

/-- `CaptureAutomation.login` (capture_automation.py lines 92-151): wait
for the operator to close the browser (exceptions here are caught and only
printed); then read `context.storage_state()` and `json.dump` it wholesale
to the session file — on failure the flow prints the error and returns
`None`; then `context.close()` (exceptions caught and ignored); finally
return the session-file path. -/
def login (sessionFile : String) (env : LoginEnv) : LoginOut :=
  if env.saveOk = false then { result := none, written := none }
  else { result := some sessionFile, written := some env.storageState }

/-- Index of the last write to path `p` in an ordered list of file writes;
the write at that index determines the file's final content. -/
def lastIdx : List String → String → Option Nat
  | [], _ => none
  | x :: xs, p =>
    match lastIdx xs p with
    | some m => some (m + 1)
    | none => if x = p then some 0 else none

/-- Spec-side notion for claim C5: the report is written to
`Path(".") / "capture_results.html"`, i.e. into the current directory, so a
screenshot path (itself relative to the current directory) expressed
relative to the report's location is the path itself. -/
def relativeToReportDir (p : String) : String := p

/-- The fields of a `Capture` other than `filename` and `screenshot_path`
agree. -/
def frameEq (c c2 : Capture) : Prop :=
  c2.url = c.url ∧ c2.wait_time = c.wait_time ∧ c2.selector = c.selector ∧
  c2.fullpage = c.fullpage ∧ c2.viewport_size = c.viewport_size

/-- The batch positions `k, k+1, ..., k+n-1` are free of uncaught failures
(navigation and screenshot write succeed). -/
def envOkFrom (env : Nat → StepEnv) (k n : Nat) : Prop :=
  ∀ j, j < n → (env (k + j)).navOk = true ∧ (env (k + j)).shotOk = true

/-- Heap invariant used for the report-path argument: every stored filename
is slash-free and every stored screenshot path is `dir` joined with a
slash-free file name. -/
def HeapPathsOk (dir : String) (h : Heap) : Prop :=
  ∀ i, (∀ f, (h i).filename = some f → '/' ∉ f.data) ∧
    (∀ p, (h i).screenshot_path = some p → ∃ f, '/' ∉ f.data ∧ p = dir ++ "/" ++ f)

/-- A concrete clock value used by the witness scenarios. -/
def wT0 : PyDateTime := { year := 2024, month := 1, day := 2, hour := 3, minute := 4, second := 5 }

/-- Concrete oracle stream: every batch position succeeds. -/
def wEnvOk : Nat → StepEnv := fun _ =>
  { navOk := true, selFound := true, shotOk := true, now := wT0 }

/-- Concrete oracle stream: batch position 1's selector never appears. -/
def wEnvSel : Nat → StepEnv := fun j =>
  if j = 1 then { navOk := true, selFound := false, shotOk := true, now := wT0 }
  else { navOk := true, selFound := true, shotOk := true, now := wT0 }

/-- Concrete render-time clock for the witness scenarios. -/
def wRnow : Nat → PyDateTime := fun _ =>
  { year := 2024, month := 1, day := 2, hour := 3, minute := 4, second := 6 }

/-- A validated request with an explicit filename and no selector. -/
def wCapA : Capture :=
  { url := "http://a/", wait_time := 0, selector := none, fullpage := true,
    filename := some "a.png", viewport_size := none, screenshot_path := none }

/-- A validated request with a selector that will never appear. -/
def wCapB : Capture :=
  { url := "http://b/", wait_time := 0, selector := some "#never", fullpage := true,
    filename := some "b.png", viewport_size := none, screenshot_path := none }

/-- A validated request with no explicit filename. -/
def wCapN : Capture :=
  { url := "http://n/", wait_time := 0, selector := none, fullpage := true,
    filename := none, viewport_size := none, screenshot_path := none }

/-- Concrete heap: object 11 is the selector-bearing request, all others
carry an explicit filename. -/
def wHeapSel : Heap := fun i => if i = 11 then wCapB else wCapA

/-- Concrete heap: every object is a request with an explicit filename. -/
def wHeapA : Heap := fun _ => wCapA

/-- Concrete heap: every object is a request with no explicit filename. -/
def wHeapN : Heap := fun _ => wCapN

/-- Concrete all-success single-capture environment. -/
def wSEnv : SingleEnv :=
  { navOk := true, selOk := true, shotOk := true, closeOk := true, now := wT0 }

/-- Concrete login environment whose session save fails. -/
def wLEnvFail : LoginEnv :=
  { waitCloseOk := true, storageState := "state", saveOk := false, closeOk := true }

/-- Concrete login environment whose session save succeeds but whose final
`context.close()` raises (tolerated). -/
def wLEnvGood : LoginEnv :=
  { waitCloseOk := true, storageState := "state", saveOk := true, closeOk := false }

/-- The report card produced for `wCapA` when the batch is invoked with
screenshots directory `shots`: the image reference keeps the hard-coded
`screenshots/` prefix although the file was written to `shots/a.png`. -/
def wSectionShots : ReportSection :=
  { url := "http://a/", wait_time := 0, selector := "なし", fullpage := "はい",
    viewport := "デフォルト", filename := "a.png", img_src := "screenshots/a.png",
    timestamp := "2024-01-02 03:04:06" }

end CaptureAuto

namespace CaptureAuto

theorem specGoodChar_imp_filenameCharOk (c : Char) (h : specGoodChar c = true) :
    filenameCharOk c = true := by
  have hold : (Char.isAlphanum c || c == '.' || c == '_' || c == '-') = true := by
    rw [show (Char.isAlphanum c || c == '.' || c == '_' || c == '-') = specGoodChar c from by
      simp only [specGoodChar, Char.isAlphanum, Char.isAlpha, Char.isDigit, Char.isUpper,
        Char.isLower, Bool.or_assoc]]
    exact h
  simp only [filenameCharOk, pyIsAlnum, Bool.or_eq_true] at hold ⊢
  tauto

/-- C3 counterexample: the claim says validation fails exactly when the
suffix-adjusted name contains a character outside `[A-Za-z0-9._-]`, but
Python's `str.isalnum` is Unicode-aware: the filename `"é"` is adjusted to
`"é.png"`, which contains `é` (code point 0xE9, outside that set), yet the
validator accepts it and returns `"é.png"` instead of failing with
`InvalidFilename`. -/
theorem validate_filename_unicode_accepted :
    validate_filename (some "é") = Except.ok (some "é.png") ∧
    'é' ∈ ("é.png" : String).data ∧ specGoodChar 'é' = false ∧
    validate_filename (some "é") ≠ Except.error VErr.invalidFilename := by
  have h1 : validate_filename (some "é") = Except.ok (some "é.png") := rfl
  refine ⟨h1, by decide, by decide, ?_⟩
  rw [h1]
  intro hc
  exact Except.noConfusion hc

/-- C3 amended: for every supplied filename string the validator returns
either `InvalidFilename` or exactly the suffix-adjusted name (the same
string with `.png` appended when the suffix is missing); if every character
of the adjusted name lies in `[A-Za-z0-9._-]`, validation succeeds with the
adjusted name; but a character outside that set does not force failure,
because Python's `str.isalnum` also accepts non-ASCII alphanumerics such as
`é`. -/
theorem validate_filename_spec (v : String) :
    ((∀ c ∈ (specAdjust v).data, specGoodChar c = true) →
      validate_filename (some v) = Except.ok (some (specAdjust v))) ∧
    (validate_filename (some v) = Except.error VErr.invalidFilename ∨
      validate_filename (some v) = Except.ok (some (specAdjust v))) := by
  have hv : validate_filename (some v) =
      (if (specAdjust v).data.all filenameCharOk then Except.ok (some (specAdjust v))
        else Except.error VErr.invalidFilename) := rfl
  constructor
  · intro hall
    have hcond : (specAdjust v).data.all filenameCharOk = true := by
      rw [List.all_eq_true]
      intro c hc
      exact specGoodChar_imp_filenameCharOk c (hall c hc)
    rw [hv, if_pos hcond]
  · rw [hv]
    by_cases hall : (specAdjust v).data.all filenameCharOk = true
    · right; rw [if_pos hall]
    · left; rw [if_neg hall]

/-- C3 witness: `"shot"` is adjusted to `"shot.png"`, every character of
which lies in `[A-Za-z0-9._-]`, and validation returns the adjusted name. -/
theorem validate_filename_spec_witness :
    (∀ c ∈ (specAdjust "shot").data, specGoodChar c = true) ∧
    validate_filename (some "shot") = Except.ok (some (specAdjust "shot")) :=
  ⟨by decide, (validate_filename_spec "shot").1 (by decide)⟩

theorem pyStrip_data_empty_iff (s : String) :
    (pyStrip s).data.isEmpty = true ↔ ∀ c ∈ s.data, c.isWhitespace = true := by
  simp only [pyStrip, List.isEmpty_iff, List.reverse_eq_nil_iff, List.dropWhile_eq_nil_iff,
    List.mem_reverse]
  constructor
  · intro h c hc
    have hsplit := List.takeWhile_append_dropWhile (p := Char.isWhitespace) (l := s.data)
    rw [← hsplit] at hc
    rcases List.mem_append.mp hc with h1 | h2
    · exact List.mem_takeWhile_imp h1
    · exact h _ h2
  · intro h x hx
    exact h x ((List.dropWhile_sublist _).mem hx)

theorem badSelectorChars_not_whitespace (c : Char) (hc : c ∈ badSelectorChars) :
    c.isWhitespace = false := by
  simp only [badSelectorChars, List.mem_cons, List.not_mem_nil, or_false] at hc
  rcases hc with rfl | rfl | rfl | rfl <;> decide

/-- C7: for every supplied selector string, if it contains any of the
characters `<`, `>`, `"`, `'` then validation fails with `InvalidSelector`,
and a whitespace-only (in particular blank) selector never fails: it is
normalized to absent (`none`); an absent selector also passes. -/
theorem validate_selector_spec (s : String) :
    ((∃ c, c ∈ badSelectorChars ∧ c ∈ s.data) →
      validate_selector (some s) = Except.error VErr.invalidSelector) ∧
    ((∀ c ∈ s.data, c.isWhitespace = true) → validate_selector (some s) = Except.ok none) ∧
    validate_selector none = Except.ok none := by
  refine ⟨?_, ?_, rfl⟩
  · rintro ⟨c, hc, hcs⟩
    have hne : (pyStrip s).data.isEmpty = false := by
      rcases h : (pyStrip s).data.isEmpty with _ | _
      · rfl
      · have := (pyStrip_data_empty_iff s).mp h c hcs
        rw [badSelectorChars_not_whitespace c hc] at this
        exact absurd this (by simp)
    have hany : badSelectorChars.any (fun c => s.data.contains c) = true := by
      rw [List.any_eq_true]
      exact ⟨c, hc, List.elem_eq_true_of_mem hcs⟩
    simp only [validate_selector, hne, hany, Bool.false_eq_true, if_false, if_true]
  · intro h
    have he : (pyStrip s).data.isEmpty = true := (pyStrip_data_empty_iff s).mpr h
    simp only [validate_selector, he, if_true]

/-- C7 witness: `"a<b"` (which contains `<`) is rejected and the
whitespace-only selector `" "` is normalized to absent. -/
theorem validate_selector_spec_witness :
    ((∃ c, c ∈ badSelectorChars ∧ c ∈ ("a<b" : String).data) ∧
      validate_selector (some "a<b") = Except.error VErr.invalidSelector) ∧
    ((∀ c ∈ (" " : String).data, c.isWhitespace = true) ∧
      validate_selector (some " ") = Except.ok none) :=
  ⟨⟨⟨'<', by decide, by decide⟩, (validate_selector_spec "a<b").1 ⟨'<', by decide, by decide⟩⟩,
    ⟨by decide, (validate_selector_spec " ").2.1 (by decide)⟩⟩

/-- C9: for every URL string, `validate_url` succeeds (returning the string
unchanged) exactly when the string parses to both a scheme and a host
(nonempty network-location); whenever it does not, validation fails with
`InvalidUrl`. -/
theorem validate_url_spec (s : String) :
    (validate_url s = Except.ok s ↔ hasSchemeAndHost s = true) ∧
    (hasSchemeAndHost s = false → validate_url s = Except.error VErr.invalidUrl) := by
  unfold validate_url hasSchemeAndHost
  cases hu : urlparseSN s with
  | error e => simp
  | ok p =>
    obtain ⟨sch, nl⟩ := p
    by_cases h1 : sch.isEmpty <;> by_cases h2 : nl.isEmpty <;> simp [h1, h2]

/-- C9 witness: `"http://example.com"` has a scheme and a host and passes;
`"example.com"` is missing the scheme and fails with `InvalidUrl`. -/
theorem validate_url_spec_witness :
    (hasSchemeAndHost "http://example.com" = true ∧
      validate_url "http://example.com" = Except.ok "http://example.com") ∧
    (hasSchemeAndHost "example.com" = false ∧
      validate_url "example.com" = Except.error VErr.invalidUrl) :=
  ⟨⟨by decide, (validate_url_spec "http://example.com").1.mpr (by decide)⟩,
    ⟨by decide, (validate_url_spec "example.com").2 (by decide)⟩⟩

/-- C1 counterexample: the claim says the string `"0x100"` fails with
`InvalidViewport`, but the string branch of `validate_viewport_size`
performs no positivity check: `"0x100"` is accepted and parsed to the pair
`(0, 100)`. -/
theorem validate_viewport_zero_accepted :
    validate_viewport_size (ViewportInput.vstr "0x100") = Except.ok (some (0, 100)) ∧
    validate_viewport_size (ViewportInput.vstr "0x100") ≠
      Except.error VErr.invalidViewport := by
  constructor
  · rfl
  · intro h
    rw [show validate_viewport_size (ViewportInput.vstr "0x100") = Except.ok (some (0, 100))
      from rfl] at h
    exact Except.noConfusion h

/-- C1 amended: `"1920x1080"` parses to width 1920, height 1080 and
`"abcxdef"` fails with `InvalidViewport`; a `(width, height)` pair is
accepted exactly when both components are positive, and any non-pair,
non-string shape fails with `InvalidViewport`; but a digits-x-digits string
is converted with no positivity check, so `"0x100"` is accepted as
`(0, 100)`. -/
theorem validate_viewport_spec :
    validate_viewport_size (ViewportInput.vstr "1920x1080") = Except.ok (some (1920, 1080)) ∧
    validate_viewport_size (ViewportInput.vstr "abcxdef") = Except.error VErr.invalidViewport ∧
    validate_viewport_size (ViewportInput.vstr "0x100") = Except.ok (some (0, 100)) ∧
    (∀ w h : Int, validate_viewport_size (ViewportInput.vpair w h) =
      if 0 < w && 0 < h then Except.ok (some (w, h))
      else Except.error VErr.invalidViewport) ∧
    validate_viewport_size ViewportInput.vpairBad = Except.error VErr.invalidViewport ∧
    validate_viewport_size ViewportInput.vother = Except.error VErr.invalidViewport ∧
    validate_viewport_size ViewportInput.vnone = Except.ok none :=
  ⟨rfl, rfl, rfl, fun _ _ => rfl, rfl, rfl, rfl⟩

theorem frameEq_refl (c : Capture) : frameEq c c := ⟨rfl, rfl, rfl, rfl, rfl⟩

theorem frameEq_trans {a b c : Capture} (h1 : frameEq a b) (h2 : frameEq b c) : frameEq a c := by
  obtain ⟨u1, w1, s1, f1, v1⟩ := h1
  obtain ⟨u2, w2, s2, f2, v2⟩ := h2
  exact ⟨u2.trans u1, w2.trans w1, s2.trans s1, f2.trans f1, v2.trans v1⟩

theorem hset_self (h : Heap) (i : Nat) (c : Capture) : hset h i c i = c := by
  simp [hset]

theorem hset_other (h : Heap) (i j : Nat) (c : Capture) (hij : j ≠ i) : hset h i c j = h j := by
  simp [hset, hij]

theorem envOkFrom_head {env : Nat → StepEnv} {k n : Nat} (h : envOkFrom env k (n + 1)) :
    (env k).navOk = true ∧ (env k).shotOk = true := by
  have := h 0 (by omega)
  simpa using this

theorem envOkFrom_tail {env : Nat → StepEnv} {k n : Nat} (h : envOkFrom env k (n + 1)) :
    envOkFrom env (k + 1) n := by
  intro j hj
  have := h (j + 1) (by omega)
  rwa [show k + (j + 1) = k + 1 + j by omega] at this

theorem runBatchAux_res (dir : String) (env : Nat → StepEnv) (input : List Nat) :
    ∀ (k : Nat) (h : Heap), envOkFrom env k input.length →
      (runBatchAux dir env k h input).res = input ∧
      (runBatchAux dir env k h input).ok = true ∧
      (runBatchAux dir env k h input).warns.length = input.length ∧
      (runBatchAux dir env k h input).writes.length = input.length := by
  induction input with
  | nil => intro k h _; simp [runBatchAux]
  | cons idx rest ih =>
    intro k h henv
    obtain ⟨hnav, hshot⟩ := envOkFrom_head henv
    obtain ⟨h1, h2, h3, h4⟩ :=
      ih (k + 1)
        (hset (hset h idx { h idx with
          filename := some (resolveFilename (h idx).filename (env k).now) }) idx
          { h idx with
            filename := some (resolveFilename (h idx).filename (env k).now),
            screenshot_path :=
              some (dir ++ "/" ++ resolveFilename (h idx).filename (env k).now) })
        (envOkFrom_tail henv)
    simp [runBatchAux, hnav, hshot, h1, h2, h3, h4]

theorem runBatchAux_frame (dir : String) (env : Nat → StepEnv) (input : List Nat) :
    ∀ (k : Nat) (h : Heap) (i : Nat), frameEq (h i) ((runBatchAux dir env k h input).heap i) := by
  induction input with
  | nil => intro k h i; exact frameEq_refl _
  | cons idx rest ih =>
    intro k h i
    by_cases hnav : (env k).navOk = false
    · simp only [runBatchAux, if_pos hnav]
      exact frameEq_refl _
    · by_cases hshot : (env k).shotOk = false
      · simp only [runBatchAux, if_neg hnav, if_pos hshot]
        by_cases hi : i = idx
        · subst hi; rw [hset_self]; exact ⟨rfl, rfl, rfl, rfl, rfl⟩
        · rw [hset_other _ _ _ _ hi]; exact frameEq_refl _
      · simp only [runBatchAux, if_neg hnav, if_neg hshot]
        refine frameEq_trans ?_ (ih (k + 1) _ i)
        by_cases hi : i = idx
        · subst hi; rw [hset_self]; exact ⟨rfl, rfl, rfl, rfl, rfl⟩
        · rw [hset_other _ _ _ _ hi, hset_other _ _ _ _ hi]; exact frameEq_refl _

theorem runBatchAux_selector (dir : String) (env : Nat → StepEnv) (input : List Nat)
    (k : Nat) (h : Heap) (i : Nat) :
    ((runBatchAux dir env k h input).heap i).selector = (h i).selector :=
  (runBatchAux_frame dir env input k h i).2.2.1

theorem runBatchAux_warns (dir : String) (env : Nat → StepEnv) (input : List Nat) :
    ∀ (k : Nat) (h : Heap), envOkFrom env k input.length →
      ∀ j, j < input.length →
        (runBatchAux dir env k h input).warns.getD j false =
          (optTruthy ((h (input.getD j 0)).selector) && !(env (k + j)).selFound) := by
  induction input with
  | nil => intro k h _ j hj; simp at hj
  | cons idx rest ih =>
    intro k h henv j hj
    obtain ⟨hnav, hshot⟩ := envOkFrom_head henv
    cases j with
    | zero => simp [runBatchAux, hnav, hshot]
    | succ j =>
      have hj' : j < rest.length := by simpa using hj
      have hrec := ih (k + 1)
        (hset (hset h idx { h idx with
          filename := some (resolveFilename (h idx).filename (env k).now) }) idx
          { h idx with
            filename := some (resolveFilename (h idx).filename (env k).now),
            screenshot_path :=
              some (dir ++ "/" ++ resolveFilename (h idx).filename (env k).now) })
        (envOkFrom_tail henv) j hj'
      have hsel2 : ∀ x : Nat,
          ((hset (hset h idx { h idx with
              filename := some (resolveFilename (h idx).filename (env k).now) }) idx
            { h idx with
              filename := some (resolveFilename (h idx).filename (env k).now),
              screenshot_path :=
                some (dir ++ "/" ++ resolveFilename (h idx).filename (env k).now) }) x).selector
            = (h x).selector := by
        intro x
        by_cases hx : x = idx <;> simp [hset, hx]
      rw [hsel2 (rest.getD j 0), show k + 1 + j = k + (j + 1) by omega] at hrec
      simpa [runBatchAux, hnav, hshot] using hrec

theorem runBatchAux_shot_mono (dir : String) (env : Nat → StepEnv) (input : List Nat) :
    ∀ (k : Nat) (h : Heap) (i : Nat), ((h i).screenshot_path).isSome = true →
      (((runBatchAux dir env k h input).heap i).screenshot_path).isSome = true := by
  induction input with
  | nil => intro k h i hi; simpa [runBatchAux] using hi
  | cons idx rest ih =>
    intro k h i hi
    by_cases hnav : (env k).navOk = false
    · simpa [runBatchAux, hnav] using hi
    · by_cases hshot : (env k).shotOk = false
      · simp only [runBatchAux, if_neg hnav, if_pos hshot]
        by_cases hx : i = idx
        · subst hx; rw [hset_self]; simpa using hi
        · rw [hset_other _ _ _ _ hx]; exact hi
      · simp only [runBatchAux, if_neg hnav, if_neg hshot]
        apply ih
        by_cases hx : i = idx
        · subst hx; rw [hset_self]; simp
        · rw [hset_other _ _ _ _ hx, hset_other _ _ _ _ hx]; exact hi

theorem runBatchAux_shot_set (dir : String) (env : Nat → StepEnv) (input : List Nat) :
    ∀ (k : Nat) (h : Heap), envOkFrom env k input.length →
      ∀ j, j < input.length →
        (((runBatchAux dir env k h input).heap (input.getD j 0)).screenshot_path).isSome
          = true := by
  induction input with
  | nil => intro k h _ j hj; simp at hj
  | cons idx rest ih =>
    intro k h henv j hj
    obtain ⟨hnav, hshot⟩ := envOkFrom_head henv
    simp only [runBatchAux, if_neg (show ¬ (env k).navOk = false by simp [hnav]),
      if_neg (show ¬ (env k).shotOk = false by simp [hshot])]
    cases j with
    | zero =>
      simp only [List.getD_cons_zero]
      apply runBatchAux_shot_mono
      rw [hset_self]; simp
    | succ j =>
      have hj' : j < rest.length := by simpa using hj
      simp only [List.getD_cons_succ]
      exact ih (k + 1) _ (envOkFrom_tail henv) j hj'

theorem runBatchAux_fn_set (dir : String) (env : Nat → StepEnv) (input : List Nat) :
    ∀ (k : Nat) (h : Heap), envOkFrom env k input.length →
      ∀ j, j < input.length →
        (((runBatchAux dir env k h input).heap (input.getD j 0)).filename).isSome = true := by
  induction input with
  | nil => intro k h _ j hj; simp at hj
  | cons idx rest ih =>
    intro k h henv j hj
    obtain ⟨hnav, hshot⟩ := envOkFrom_head henv
    simp only [runBatchAux, if_neg (show ¬ (env k).navOk = false by simp [hnav]),
      if_neg (show ¬ (env k).shotOk = false by simp [hshot])]
    cases j with
    | zero =>
      simp only [List.getD_cons_zero]
      have hfn : ∀ (kk : Nat) (hh : Heap) (i : Nat), ((hh i).filename).isSome = true →
          (((runBatchAux dir env kk hh rest).heap i).filename).isSome = true := by
        clear ih hj henv
        induction rest with
        | nil => intro kk hh i hi; simpa [runBatchAux] using hi
        | cons y ys ihy =>
          intro kk hh i hi
          by_cases hn : (env kk).navOk = false
          · simpa [runBatchAux, hn] using hi
          · by_cases hs : (env kk).shotOk = false
            · simp only [runBatchAux, if_neg hn, if_pos hs]
              by_cases hx : i = y
              · subst hx; rw [hset_self]; simp
              · rw [hset_other _ _ _ _ hx]; exact hi
            · simp only [runBatchAux, if_neg hn, if_neg hs]
              apply ihy
              by_cases hx : i = y
              · subst hx; rw [hset_self]; simp
              · rw [hset_other _ _ _ _ hx, hset_other _ _ _ _ hx]; exact hi
      apply hfn
      rw [hset_self]; simp
    | succ j =>
      have hj' : j < rest.length := by simpa using hj
      simp only [List.getD_cons_succ]
      exact ih (k + 1) _ (envOkFrom_tail henv) j hj'

theorem runBatchAux_untouched (dir : String) (env : Nat → StepEnv) (input : List Nat) :
    ∀ (k : Nat) (h : Heap) (i : Nat), i ∉ input →
      (runBatchAux dir env k h input).heap i = h i := by
  induction input with
  | nil => intro k h i _; simp [runBatchAux]
  | cons idx rest ih =>
    intro k h i hi
    have hne : i ≠ idx := by
      intro he; exact hi (he ▸ List.mem_cons_self idx rest)
    have hrest : i ∉ rest := fun hm => hi (List.mem_cons_of_mem _ hm)
    by_cases hnav : (env k).navOk = false
    · simp [runBatchAux, hnav]
    · by_cases hshot : (env k).shotOk = false
      · simp only [runBatchAux, if_neg hnav, if_pos hshot]
        exact hset_other _ _ _ _ hne
      · simp only [runBatchAux, if_neg hnav, if_neg hshot]
        rw [ih (k + 1) _ i hrest, hset_other _ _ _ _ hne, hset_other _ _ _ _ hne]

theorem runBatchAux_fn_keep (dir : String) (env : Nat → StepEnv) (input : List Nat) :
    ∀ (k : Nat) (h : Heap) (i : Nat) (f : String),
      (h i).filename = some f → f.data.isEmpty = false →
      ((runBatchAux dir env k h input).heap i).filename = some f := by
  induction input with
  | nil => intro k h i f hf _; simpa [runBatchAux] using hf
  | cons idx rest ih =>
    intro k h i f hf hfe
    by_cases hnav : (env k).navOk = false
    · simpa [runBatchAux, hnav] using hf
    · by_cases hshot : (env k).shotOk = false
      · simp only [runBatchAux, if_neg hnav, if_pos hshot]
        by_cases hx : i = idx
        · subst hx; rw [hset_self]; simp [resolveFilename, hf, hfe]
        · rw [hset_other _ _ _ _ hx]; exact hf
      · simp only [runBatchAux, if_neg hnav, if_neg hshot]
        refine ih (k + 1) _ i f ?_ hfe
        by_cases hx : i = idx
        · subst hx; rw [hset_self]; simp [resolveFilename, hf, hfe]
        · rw [hset_other _ _ _ _ hx, hset_other _ _ _ _ hx]; exact hf

theorem runBatchAux_shot_writes (dir : String) (env : Nat → StepEnv) (input : List Nat) :
    ∀ (k : Nat) (h : Heap) (i : Nat) (p : String),
      ((runBatchAux dir env k h input).heap i).screenshot_path = some p →
      p ∈ (runBatchAux dir env k h input).writes ∨ (h i).screenshot_path = some p := by
  induction input with
  | nil => intro k h i p hp; right; simpa [runBatchAux] using hp
  | cons idx rest ih =>
    intro k h i p hp
    by_cases hnav : (env k).navOk = false
    · right; simpa [runBatchAux, hnav] using hp
    · by_cases hshot : (env k).shotOk = false
      · simp only [runBatchAux, if_neg hnav, if_pos hshot] at hp ⊢
        right
        by_cases hx : i = idx
        · subst hx; rw [hset_self] at hp; simpa using hp
        · rw [hset_other _ _ _ _ hx] at hp; exact hp
      · simp only [runBatchAux, if_neg hnav, if_neg hshot] at hp ⊢
        rcases ih (k + 1) _ i p hp with hin | hh2
        · left; exact List.mem_cons_of_mem _ hin
        · by_cases hx : i = idx
          · subst hx
            rw [hset_self] at hh2
            left
            simp only [Option.some.injEq] at hh2
            rw [← hh2]
            exact List.mem_cons_self _ _
          · rw [hset_other _ _ _ _ hx, hset_other _ _ _ _ hx] at hh2
            right; exact hh2

theorem getD_mem_of_lt {l : List Nat} {j : Nat} (hj : j < l.length) : l.getD j 0 ∈ l := by
  rw [List.getD_eq_getElem l 0 hj]
  exact l.getElem_mem hj

theorem runBatchAux_nodup_final (dir : String) (env : Nat → StepEnv) (input : List Nat) :
    ∀ (k : Nat) (h : Heap), input.Nodup → envOkFrom env k input.length →
      ∀ j, j < input.length →
        (runBatchAux dir env k h input).heap (input.getD j 0) =
          { h (input.getD j 0) with
            filename := some (resolveFilename ((h (input.getD j 0)).filename) ((env (k + j)).now)),
            screenshot_path := some (dir ++ "/" ++
              resolveFilename ((h (input.getD j 0)).filename) ((env (k + j)).now)) } := by
  induction input with
  | nil => intro k h _ _ j hj; simp at hj
  | cons idx rest ih =>
    intro k h hnd henv j hj
    obtain ⟨hnav, hshot⟩ := envOkFrom_head henv
    have hni : idx ∉ rest := (List.nodup_cons.mp hnd).1
    have hnr : rest.Nodup := (List.nodup_cons.mp hnd).2
    simp only [runBatchAux, if_neg (show ¬ (env k).navOk = false by simp [hnav]),
      if_neg (show ¬ (env k).shotOk = false by simp [hshot])]
    cases j with
    | zero =>
      simp only [List.getD_cons_zero, Nat.add_zero]
      rw [runBatchAux_untouched dir env rest (k + 1) _ idx hni, hset_self]
    | succ j =>
      have hj' : j < rest.length := by simpa using hj
      have hne : rest.getD j 0 ≠ idx := fun he => hni (he ▸ getD_mem_of_lt hj')
      have hrec := ih (k + 1)
        (hset (hset h idx { h idx with
          filename := some (resolveFilename (h idx).filename (env k).now) }) idx
          { h idx with
            filename := some (resolveFilename (h idx).filename (env k).now),
            screenshot_path :=
              some (dir ++ "/" ++ resolveFilename (h idx).filename (env k).now) })
        hnr (envOkFrom_tail henv) j hj'
      rw [hset_other _ _ _ _ hne, hset_other _ _ _ _ hne,
        show k + 1 + j = k + (j + 1) by omega] at hrec
      simpa using hrec

theorem runBatchAux_writes_val (dir : String) (env : Nat → StepEnv) (input : List Nat) :
    ∀ (k : Nat) (h : Heap), input.Nodup → envOkFrom env k input.length →
      ∀ j, j < input.length →
        (runBatchAux dir env k h input).writes.getD j "" =
          dir ++ "/" ++ resolveFilename ((h (input.getD j 0)).filename) ((env (k + j)).now) := by
  induction input with
  | nil => intro k h _ _ j hj; simp at hj
  | cons idx rest ih =>
    intro k h hnd henv j hj
    obtain ⟨hnav, hshot⟩ := envOkFrom_head henv
    have hni : idx ∉ rest := (List.nodup_cons.mp hnd).1
    have hnr : rest.Nodup := (List.nodup_cons.mp hnd).2
    cases j with
    | zero => simp [runBatchAux, hnav, hshot]
    | succ j =>
      have hj' : j < rest.length := by simpa using hj
      have hne : rest.getD j 0 ≠ idx := fun he => hni (he ▸ getD_mem_of_lt hj')
      have hrec := ih (k + 1)
        (hset (hset h idx { h idx with
          filename := some (resolveFilename (h idx).filename (env k).now) }) idx
          { h idx with
            filename := some (resolveFilename (h idx).filename (env k).now),
            screenshot_path :=
              some (dir ++ "/" ++ resolveFilename (h idx).filename (env k).now) })
        hnr (envOkFrom_tail henv) j hj'
      rw [hset_other _ _ _ _ hne, hset_other _ _ _ _ hne,
        show k + 1 + j = k + (j + 1) by omega] at hrec
      simpa [runBatchAux, hnav, hshot] using hrec

theorem lastIdx_none_spec (l : List String) (p : String) :
    lastIdx l p = none → ∀ j, j < l.length → l.getD j "" ≠ p := by
  induction l with
  | nil => intro _ j hj; simp at hj
  | cons x xs ih =>
    intro hn j hj
    simp only [lastIdx] at hn
    cases hm : lastIdx xs p with
    | some m => rw [hm] at hn; simp at hn
    | none =>
      rw [hm] at hn
      have hx : x ≠ p := by
        intro he; rw [if_pos he] at hn; simp at hn
      cases j with
      | zero => simpa using hx
      | succ j => exact ih hm j (by simpa using hj)

theorem lastIdx_ge (l : List String) (p : String) :
    ∀ m, lastIdx l p = some m → ∀ j, j < l.length → l.getD j "" = p → j ≤ m := by
  induction l with
  | nil => intro m hm; simp [lastIdx] at hm
  | cons x xs ih =>
    intro m hm j hj hjp
    simp only [lastIdx] at hm
    cases hr : lastIdx xs p with
    | some m2 =>
      rw [hr] at hm
      simp only [Option.some.injEq] at hm
      cases j with
      | zero => omega
      | succ j =>
        have := ih m2 hr j (by simpa using hj) (by simpa using hjp)
        omega
    | none =>
      rw [hr] at hm
      by_cases hx : x = p
      · rw [if_pos hx] at hm
        simp only [Option.some.injEq] at hm
        cases j with
        | zero => omega
        | succ j =>
          exact absurd (by simpa using hjp) (lastIdx_none_spec xs p hr j (by simpa using hj))
      · rw [if_neg hx] at hm; simp at hm

theorem lastIdx_isSome_of (l : List String) (p : String) (j : Nat) (hj : j < l.length)
    (hp : l.getD j "" = p) : (lastIdx l p).isSome = true := by
  cases hl : lastIdx l p with
  | some m => simp
  | none => exact absurd hp (lastIdx_none_spec l p hl j hj)

theorem str_data_append (a b : String) : (a ++ b).data = a.data ++ b.data := by
  cases a; cases b; rfl

theorem digitChar_ne_slash (n : Nat) (hn : n < 10) : Nat.digitChar n ≠ '/' := by
  interval_cases n <;> decide

theorem natCharsAux_no_slash : ∀ (fuel n : Nat), '/' ∉ natCharsAux fuel n := by
  intro fuel
  induction fuel with
  | zero => intro n; simp [natCharsAux]
  | succ fuel ih =>
    intro n
    simp only [natCharsAux]
    by_cases hn : n < 10
    · rw [if_pos hn]
      intro hmem
      rw [List.mem_singleton] at hmem
      exact digitChar_ne_slash n hn hmem.symm
    · rw [if_neg hn]
      intro hmem
      rcases List.mem_append.mp hmem with hm | hm
      · exact ih (n / 10) hm
      · rw [List.mem_singleton] at hm
        exact digitChar_ne_slash (n % 10) (by omega) hm.symm

theorem padChars_no_slash (w n : Nat) : '/' ∉ padChars w n := by
  intro hmem
  rcases List.mem_append.mp hmem with hm | hm
  · have := List.eq_of_mem_replicate hm
    exact absurd this (by decide)
  · exact natCharsAux_no_slash _ _ hm

theorem fmtTs_no_slash (t : PyDateTime) : '/' ∉ (fmtTs t).data := by
  show '/' ∉ (padChars 4 t.year ++ padChars 2 t.month ++ padChars 2 t.day ++ ['_'] ++
    padChars 2 t.hour ++ padChars 2 t.minute ++ padChars 2 t.second)
  intro hmem
  simp only [List.mem_append, List.mem_singleton] at hmem
  rcases hmem with ((((((hm | hm) | hm) | hm) | hm) | hm) | hm)
  · exact padChars_no_slash _ _ hm
  · exact padChars_no_slash _ _ hm
  · exact padChars_no_slash _ _ hm
  · exact absurd hm (by decide)
  · exact padChars_no_slash _ _ hm
  · exact padChars_no_slash _ _ hm
  · exact padChars_no_slash _ _ hm

theorem resolveFilename_no_slash (fn : Option String) (t : PyDateTime)
    (hfn : ∀ f, fn = some f → '/' ∉ f.data) : '/' ∉ (resolveFilename fn t).data := by
  have hsynth : '/' ∉ ("screenshot_" ++ fmtTs t ++ ".png").data := by
    rw [str_data_append, str_data_append]
    intro hmem
    rcases List.mem_append.mp hmem with hmem1 | hm2
    · rcases List.mem_append.mp hmem1 with hm0 | hm1
      · exact absurd hm0 (by decide)
      · exact fmtTs_no_slash t hm1
    · exact absurd hm2 (by decide)
  cases fn with
  | none => exact hsynth
  | some f =>
    by_cases hfe : f.data.isEmpty = true
    · simp only [resolveFilename, if_pos hfe]; exact hsynth
    · simp only [resolveFilename, if_neg hfe]; exact hfn f rfl

theorem takeWhile_all_append {p : Char → Bool} :
    ∀ (l1 : List Char) (x : Char) (l2 : List Char), (∀ c ∈ l1, p c = true) → p x = false →
      List.takeWhile p (l1 ++ x :: l2) = l1 := by
  intro l1
  induction l1 with
  | nil => intro x l2 _ hx; simp [List.takeWhile_cons, hx]
  | cons a t ih =>
    intro x l2 hall hx
    have ha : p a = true := hall a (List.mem_cons_self _ _)
    simp [List.takeWhile_cons, ha, ih x l2 (fun c hc => hall c (List.mem_cons_of_mem _ hc)) hx]

theorem pathName_append (d f : String) (hf : '/' ∉ f.data) : pathName (d ++ "/" ++ f) = f := by
  unfold pathName
  rw [str_data_append, str_data_append,
    show ("/" : String).data = ['/'] from rfl, List.reverse_append, List.reverse_append]
  have hall : ∀ c ∈ f.data.reverse, (fun c => decide (c ≠ '/')) c = true := by
    intro c hc
    rw [List.mem_reverse] at hc
    simp only [decide_eq_true_iff]
    intro he
    exact hf (he ▸ hc)
  have := takeWhile_all_append f.data.reverse '/' d.data.reverse hall (by decide)
  simp only [List.reverse_singleton] at *
  rw [show (['/'] ++ d.data.reverse) = '/' :: d.data.reverse from rfl, this, List.reverse_reverse]

theorem runBatchAux_pathsOk (dir : String) (env : Nat → StepEnv) (input : List Nat) :
    ∀ (k : Nat) (h : Heap), HeapPathsOk dir h →
      HeapPathsOk dir (runBatchAux dir env k h input).heap := by
  induction input with
  | nil => intro k h hh; simpa [runBatchAux] using hh
  | cons idx rest ih =>
    intro k h hh
    have hfn1 : '/' ∉ (resolveFilename (h idx).filename (env k).now).data :=
      resolveFilename_no_slash _ _ (fun g hg => (hh idx).1 g hg)
    have hc1ok : HeapPathsOk dir (hset h idx { h idx with
        filename := some (resolveFilename (h idx).filename (env k).now) }) := by
      intro i
      by_cases hx : i = idx
      · subst hx
        rw [hset_self]
        constructor
        · intro f hf
          simp only [Option.some.injEq] at hf
          rw [← hf]
          exact hfn1
        · intro p hp
          exact (hh i).2 p (by simpa using hp)
      · rw [hset_other _ _ _ _ hx]; exact hh i
    by_cases hnav : (env k).navOk = false
    · simpa [runBatchAux, hnav] using hh
    · by_cases hshot : (env k).shotOk = false
      · simp only [runBatchAux, if_neg hnav, if_pos hshot]
        exact hc1ok
      · simp only [runBatchAux, if_neg hnav, if_neg hshot]
        apply ih
        intro i
        by_cases hx : i = idx
        · subst hx
          rw [hset_self]
          constructor
          · intro f hf
            simp only [Option.some.injEq] at hf
            rw [← hf]
            exact hfn1
          · intro p hp
            simp only [Option.some.injEq] at hp
            exact ⟨resolveFilename (h i).filename (env k).now, hfn1, hp.symm⟩
        · rw [hset_other _ _ _ _ hx, hset_other _ _ _ _ hx]
          exact hh i

theorem resolveFilename_none (t : PyDateTime) :
    resolveFilename none t = "screenshot_" ++ fmtTs t ++ ".png" := rfl

theorem captures_ok_eq (dir : String) (env : Nat → StepEnv) (rnow : Nat → PyDateTime)
    (h : Heap) (input : List Nat) (hok : (runBatchAux dir env 0 h input).ok = true) :
    captures dir env rnow h input =
      { heap := (runBatchAux dir env 0 h input).heap,
        result := some (runBatchAux dir env 0 h input).res,
        warns := (runBatchAux dir env 0 h input).warns,
        trace := (runBatchAux dir env 0 h input).writes.map BEvent.shotWrite ++
          [BEvent.reportWrite ((runBatchAux dir env 0 h input).res.enum.map
            (fun p => renderSection (fmtRender (rnow p.1))
              ((runBatchAux dir env 0 h input).heap p.2)))] } := by
  simp [captures, hok]

/-- C2: in a batch where navigation and the screenshot writes succeed, a
request whose selector wait times out still produces a result: the returned
list is exactly the input list (one result per request, in the original
input order), a warning is recorded at that request's position, and every
request — including the timed-out one — ends with a screenshot path set
(best-effort screenshot); no request is aborted. -/
theorem captures_selector_timeout (dir : String) (env : Nat → StepEnv)
    (rnow : Nat → PyDateTime) (h : Heap) (input : List Nat) (k : Nat)
    (henv : ∀ j, j < input.length → (env j).navOk = true ∧ (env j).shotOk = true)
    (hk : k < input.length)
    (hsel : optTruthy ((h (input.getD k 0)).selector) = true)
    (hto : (env k).selFound = false) :
    (captures dir env rnow h input).result = some input ∧
    (captures dir env rnow h input).warns.length = input.length ∧
    (captures dir env rnow h input).warns.getD k false = true ∧
    (∀ m, m < input.length →
      (((captures dir env rnow h input).heap (input.getD m 0)).screenshot_path).isSome
        = true) := by
  have henv0 : envOkFrom env 0 input.length := by
    intro j hj; simpa using henv j hj
  obtain ⟨hres, hok, hwlen, _⟩ := runBatchAux_res dir env input 0 h henv0
  have hwarn := runBatchAux_warns dir env input 0 h henv0 k hk
  rw [Nat.zero_add] at hwarn
  rw [captures_ok_eq dir env rnow h input hok]
  refine ⟨by rw [hres], by rw [hwlen], ?_, ?_⟩
  · show (runBatchAux dir env 0 h input).warns.getD k false = true
    rw [hwarn, hsel, hto]
    rfl
  · intro m hm
    exact runBatchAux_shot_set dir env input 0 h henv0 m hm

/-- C2 witness: a batch of three requests where request 1 (0-based) has a
selector that never appears still yields all three results in order, with a
warning at position 1 and screenshots for all three. -/
theorem captures_selector_timeout_witness :
    ((∀ j, j < ([10, 11, 12] : List Nat).length →
        (wEnvSel j).navOk = true ∧ (wEnvSel j).shotOk = true) ∧
      1 < ([10, 11, 12] : List Nat).length ∧
      optTruthy ((wHeapSel (([10, 11, 12] : List Nat).getD 1 0)).selector) = true ∧
      (wEnvSel 1).selFound = false) ∧
    (captures "screenshots" wEnvSel wRnow wHeapSel [10, 11, 12]).result =
      some [10, 11, 12] ∧
    (captures "screenshots" wEnvSel wRnow wHeapSel [10, 11, 12]).warns.getD 1 false =
      true := by
  refine ⟨⟨by decide, by decide, by decide, by decide⟩, ?_, ?_⟩
  · exact (captures_selector_timeout "screenshots" wEnvSel wRnow wHeapSel [10, 11, 12] 1
      (by decide) (by decide) (by decide) (by decide)).1
  · exact (captures_selector_timeout "screenshots" wEnvSel wRnow wHeapSel [10, 11, 12] 1
      (by decide) (by decide) (by decide) (by decide)).2.2.1

/-- C10: when the batch completes, the returned list holds, at each
position, the very same object reference that was supplied at that position
of the input (no copies), and the mutations performed during the batch —
filling in `filename` and `screenshot_path` — are visible through those
original references. -/
theorem captures_alias (dir : String) (env : Nat → StepEnv) (rnow : Nat → PyDateTime)
    (h : Heap) (input : List Nat)
    (henv : ∀ j, j < input.length → (env j).navOk = true ∧ (env j).shotOk = true) :
    (captures dir env rnow h input).result = some input ∧
    (∀ m, m < input.length →
      (((captures dir env rnow h input).heap (input.getD m 0)).filename).isSome = true ∧
      (((captures dir env rnow h input).heap (input.getD m 0)).screenshot_path).isSome
        = true) := by
  have henv0 : envOkFrom env 0 input.length := by
    intro j hj; simpa using henv j hj
  obtain ⟨hres, hok, _, _⟩ := runBatchAux_res dir env input 0 h henv0
  rw [captures_ok_eq dir env rnow h input hok]
  refine ⟨by rw [hres], ?_⟩
  intro m hm
  exact ⟨runBatchAux_fn_set dir env input 0 h henv0 m hm,
    runBatchAux_shot_set dir env input 0 h henv0 m hm⟩

/-- C10 witness: a two-request batch returns exactly the two supplied
references and both referenced objects have been mutated in place. -/
theorem captures_alias_witness :
    (∀ j, j < ([5, 7] : List Nat).length →
      (wEnvOk j).navOk = true ∧ (wEnvOk j).shotOk = true) ∧
    (captures "screenshots" wEnvOk wRnow wHeapN [5, 7]).result = some [5, 7] ∧
    (((captures "screenshots" wEnvOk wRnow wHeapN [5, 7]).heap
      (([5, 7] : List Nat).getD 0 0)).filename).isSome = true := by
  refine ⟨by decide, ?_, ?_⟩
  · exact (captures_alias "screenshots" wEnvOk wRnow wHeapN [5, 7] (by decide)).1
  · exact ((captures_alias "screenshots" wEnvOk wRnow wHeapN [5, 7] (by decide)).2 0
      (by decide)).1

/-- C6: in a completed batch of distinct requests, two requests (positions
a < b) that both lack an explicit filename and whose filenames are
synthesized in the same clock second get the identical synthesized name
`screenshot_YYYYMMDD_HHMMSS.png` (built solely from the timestamp at second
resolution), hence the identical output path; the later request's write to
that path comes last among the two — the file's final content is from a
write at position at least `b`, so the later capture overwrites the
earlier. -/
theorem captures_same_second (dir : String) (env : Nat → StepEnv) (h : Heap)
    (input : List Nat) (a b : Nat)
    (hnd : input.Nodup)
    (henv : ∀ j, j < input.length → (env j).navOk = true ∧ (env j).shotOk = true)
    (ha : a < input.length) (hb : b < input.length) (hab : a < b)
    (hfa : (h (input.getD a 0)).filename = none)
    (hfb : (h (input.getD b 0)).filename = none)
    (ht : (env a).now = (env b).now) :
    ((runBatchAux dir env 0 h input).heap (input.getD a 0)).filename =
      some ("screenshot_" ++ fmtTs (env a).now ++ ".png") ∧
    ((runBatchAux dir env 0 h input).heap (input.getD b 0)).filename =
      some ("screenshot_" ++ fmtTs (env a).now ++ ".png") ∧
    ((runBatchAux dir env 0 h input).heap (input.getD a 0)).screenshot_path =
      some (dir ++ "/" ++ ("screenshot_" ++ fmtTs (env a).now ++ ".png")) ∧
    ((runBatchAux dir env 0 h input).heap (input.getD b 0)).screenshot_path =
      some (dir ++ "/" ++ ("screenshot_" ++ fmtTs (env a).now ++ ".png")) ∧
    (runBatchAux dir env 0 h input).writes.getD b "" =
      dir ++ "/" ++ ("screenshot_" ++ fmtTs (env a).now ++ ".png") ∧
    (lastIdx (runBatchAux dir env 0 h input).writes
      (dir ++ "/" ++ ("screenshot_" ++ fmtTs (env a).now ++ ".png"))).isSome = true ∧
    (∀ m, lastIdx (runBatchAux dir env 0 h input).writes
      (dir ++ "/" ++ ("screenshot_" ++ fmtTs (env a).now ++ ".png")) = some m →
      b ≤ m) := by
  have henv0 : envOkFrom env 0 input.length := by
    intro j hj; simpa using henv j hj
  have hA := runBatchAux_nodup_final dir env input 0 h hnd henv0 a ha
  have hB := runBatchAux_nodup_final dir env input 0 h hnd henv0 b hb
  rw [Nat.zero_add] at hA hB
  rw [hfa, resolveFilename_none] at hA
  rw [hfb, ← ht, resolveFilename_none] at hB
  have hw := runBatchAux_writes_val dir env input 0 h hnd henv0 b hb
  rw [Nat.zero_add, hfb, ← ht, resolveFilename_none] at hw
  obtain ⟨_, _, _, hwlen⟩ := runBatchAux_res dir env input 0 h henv0
  have hblen : b < (runBatchAux dir env 0 h input).writes.length := by rw [hwlen]; exact hb
  refine ⟨by rw [hA], by rw [hB], by rw [hA], by rw [hB], hw,
    lastIdx_isSome_of _ _ b hblen hw, ?_⟩
  intro m hm
  exact lastIdx_ge _ _ m hm b hblen hw

/-- C6 witness: two requests without explicit filenames processed in the
same clock second get the same synthesized filename, and the final content
of the shared path is from the later request's write. -/
theorem captures_same_second_witness :
    (([5, 7] : List Nat).Nodup ∧
      (∀ j, j < ([5, 7] : List Nat).length →
        (wEnvOk j).navOk = true ∧ (wEnvOk j).shotOk = true) ∧
      (wHeapN (([5, 7] : List Nat).getD 0 0)).filename = none ∧
      (wHeapN (([5, 7] : List Nat).getD 1 0)).filename = none ∧
      (wEnvOk 0).now = (wEnvOk 1).now) ∧
    ((runBatchAux "screenshots" wEnvOk 0 wHeapN [5, 7]).heap
      (([5, 7] : List Nat).getD 0 0)).filename =
      some ("screenshot_" ++ fmtTs (wEnvOk 0).now ++ ".png") ∧
    ((runBatchAux "screenshots" wEnvOk 0 wHeapN [5, 7]).heap
      (([5, 7] : List Nat).getD 1 0)).screenshot_path =
      some ("screenshots" ++ "/" ++ ("screenshot_" ++ fmtTs (wEnvOk 0).now ++ ".png")) ∧
    (∀ m, lastIdx (runBatchAux "screenshots" wEnvOk 0 wHeapN [5, 7]).writes
      ("screenshots" ++ "/" ++ ("screenshot_" ++ fmtTs (wEnvOk 0).now ++ ".png")) =
        some m → 1 ≤ m) := by
  refine ⟨⟨by decide, by decide, by decide, by decide, by decide⟩, ?_, ?_, ?_⟩
  · exact (captures_same_second "screenshots" wEnvOk wHeapN [5, 7] 0 1 (by decide)
      (by decide) (by decide) (by decide) (by decide) (by decide) (by decide) rfl).1
  · exact (captures_same_second "screenshots" wEnvOk wHeapN [5, 7] 0 1 (by decide)
      (by decide) (by decide) (by decide) (by decide) (by decide) (by decide) rfl).2.2.2.1
  · exact (captures_same_second "screenshots" wEnvOk wHeapN [5, 7] 0 1 (by decide)
      (by decide) (by decide) (by decide) (by decide) (by decide) (by decide) rfl).2.2.2.2.2.2

/-- C4 counterexample: the claim says every field other than
`screenshotPath` is unchanged by a capture execution, but a request without
an explicit filename has its `filename` field filled in (mutated) by the
execution. -/
theorem capture_mutates_filename :
    (capture "screenshots" wSEnv wCapN).2.1.filename =
      some "screenshot_20240102_030405.png" ∧
    wCapN.filename = none ∧
    (capture "screenshots" wSEnv wCapN).2.1.filename ≠ wCapN.filename := by
  refine ⟨by decide, by decide, by decide⟩

/-- C4 amended: for a validated request with `screenshotPath` unset, every
field other than `filename` and `screenshotPath` is unchanged by a capture
execution (single or batch); a nonempty explicit `filename` is preserved
(only an absent one is filled in); and `screenshotPath` is set at most
once, only to the path of a screenshot write that was actually performed —
on any failure before the write it remains unset. -/
theorem capture_frame_effects :
    (∀ (dir : String) (env : SingleEnv) (c : Capture), c.screenshot_path = none →
      frameEq c (capture dir env c).2.1 ∧
      (∀ f, c.filename = some f → f.data.isEmpty = false →
        (capture dir env c).2.1.filename = some f) ∧
      (∀ p, (capture dir env c).2.1.screenshot_path = some p →
        (capture dir env c).2.2 = some p) ∧
      ((capture dir env c).2.2 = none →
        (capture dir env c).2.1.screenshot_path = none)) ∧
    (∀ (dir : String) (env : Nat → StepEnv) (h : Heap) (input : List Nat) (i : Nat),
      frameEq (h i) ((runBatchAux dir env 0 h input).heap i) ∧
      (∀ f, (h i).filename = some f → f.data.isEmpty = false →
        ((runBatchAux dir env 0 h input).heap i).filename = some f) ∧
      ((h i).screenshot_path = none → ∀ p,
        ((runBatchAux dir env 0 h input).heap i).screenshot_path = some p →
        p ∈ (runBatchAux dir env 0 h input).writes)) := by
  constructor
  · intro dir env c hc
    by_cases hnav : env.navOk = false
    · simp only [capture, if_pos hnav]
      refine ⟨frameEq_refl c, fun f hf _ => hf, ?_, fun _ => hc⟩
      intro p hp
      rw [hc] at hp
      exact Option.noConfusion hp
    · by_cases hsel : (optTruthy c.selector && !env.selOk) = true
      · simp only [capture, if_neg hnav, if_pos hsel]
        refine ⟨frameEq_refl c, fun f hf _ => hf, ?_, fun _ => hc⟩
        intro p hp
        rw [hc] at hp
        exact Option.noConfusion hp
      · by_cases hshot : env.shotOk = false
        · simp only [capture, if_neg hnav, if_neg hsel, if_pos hshot]
          refine ⟨⟨rfl, rfl, rfl, rfl, rfl⟩, ?_, ?_, ?_⟩
          · intro f hf hfe
            simp [resolveFilename, hf, hfe]
          · intro p hp
            rw [hc] at hp
            exact Option.noConfusion hp
          · intro _
            simpa using hc
        · by_cases hclose : env.closeOk = false
          · simp only [capture, if_neg hnav, if_neg hsel, if_neg hshot, if_pos hclose]
            refine ⟨⟨rfl, rfl, rfl, rfl, rfl⟩, ?_, ?_, ?_⟩
            · intro f hf hfe
              simp [resolveFilename, hf, hfe]
            · intro p hp
              simp only [Option.some.injEq] at hp
              rw [hp]
            · intro hn
              exact absurd hn (by simp)
          · simp only [capture, if_neg hnav, if_neg hsel, if_neg hshot, if_neg hclose]
            refine ⟨⟨rfl, rfl, rfl, rfl, rfl⟩, ?_, ?_, ?_⟩
            · intro f hf hfe
              simp [resolveFilename, hf, hfe]
            · intro p hp
              simp only [Option.some.injEq] at hp
              rw [hp]
            · intro hn
              exact absurd hn (by simp)
  · intro dir env h input i
    refine ⟨runBatchAux_frame dir env input 0 h i,
      fun f hf hfe => runBatchAux_fn_keep dir env input 0 h i f hf hfe, ?_⟩
    intro hn p hp
    rcases runBatchAux_shot_writes dir env input 0 h i p hp with hin | hold
    · exact hin
    · rw [hn] at hold
      exact absurd hold (by simp)

/-- C4 witness: the amended frame property holds on concrete inputs, both
for a single capture and for a one-request batch. -/
theorem capture_frame_effects_witness :
    (wCapN.screenshot_path = none ∧
      frameEq wCapN (capture "screenshots" wSEnv wCapN).2.1 ∧
      (∀ p, (capture "screenshots" wSEnv wCapN).2.1.screenshot_path = some p →
        (capture "screenshots" wSEnv wCapN).2.2 = some p)) ∧
    ((wHeapA 0).filename = some "a.png" ∧
      frameEq (wHeapA 0) ((runBatchAux "screenshots" wEnvOk 0 wHeapA [0]).heap 0) ∧
      ((runBatchAux "screenshots" wEnvOk 0 wHeapA [0]).heap 0).filename = some "a.png") := by
  have h1 := capture_frame_effects.1 "screenshots" wSEnv wCapN (by decide)
  have h2 := capture_frame_effects.2 "screenshots" wEnvOk wHeapA [0] 0
  exact ⟨⟨by decide, h1.1, h1.2.2.1⟩,
    ⟨by decide, h2.1, h2.2.1 "a.png" (by decide) (by decide)⟩⟩

/-- C8: on `CaptureAutomation.login` (and the structurally identical
`AWSLogin.login`), if persisting the session state fails after the operator
closes the browser, the flow returns the absent-session signal `None`
instead of raising and writes nothing; on success it writes the context's
storage state wholesale to the session file and returns that file's path. -/
theorem login_session (sessionFile : String) (env : LoginEnv) :
    (env.saveOk = false → login sessionFile env = { result := none, written := none }) ∧
    (env.saveOk = true → login sessionFile env =
      { result := some sessionFile, written := some env.storageState }) := by
  constructor
  · intro hs
    simp [login, hs]
  · intro hs
    simp [login, hs]

/-- C8 witness: a failing save returns `None` and writes nothing; a
successful save (even with a failing final close) writes the storage state
wholesale and returns the session-file path. -/
theorem login_session_witness :
    (wLEnvFail.saveOk = false ∧
      login "browser_session.json" wLEnvFail = { result := none, written := none }) ∧
    (wLEnvGood.saveOk = true ∧
      login "browser_session.json" wLEnvGood =
        { result := some "browser_session.json", written := some "state" }) :=
  ⟨⟨rfl, (login_session "browser_session.json" wLEnvFail).1 rfl⟩,
    ⟨rfl, (login_session "browser_session.json" wLEnvGood).2 rfl⟩⟩

theorem filter_report_map_shot (ws : List String) :
    (ws.map BEvent.shotWrite).filter isReportWrite = [] := by
  induction ws with
  | nil => rfl
  | cons x xs ih => simp [isReportWrite, ih]

/-- C5 counterexample: the claim says each report section's image reference
is the screenshot path expressed relative to the report's location for
every screenshots directory, but the template hard-codes the prefix
`screenshots/`: invoked with directory `shots`, the screenshot lands at
`shots/a.png` (which is its path relative to the report written in the
current directory) while the report references `screenshots/a.png`. -/
theorem captures_relative_path_counterexample :
    ((captures "shots" wEnvOk wRnow wHeapA [0]).heap 0).screenshot_path =
      some "shots/a.png" ∧
    (captures "shots" wEnvOk wRnow wHeapA [0]).trace =
      [BEvent.shotWrite "shots/a.png", BEvent.reportWrite [wSectionShots]] ∧
    wSectionShots.img_src = "screenshots/a.png" ∧
    relativeToReportDir "shots/a.png" = "shots/a.png" ∧
    "screenshots/a.png" ≠ relativeToReportDir "shots/a.png" := by
  refine ⟨by decide, by decide, rfl, rfl, by decide⟩

/-- C5 amended: for a completed batch of validated requests (fresh
`screenshotPath`, slash-free filenames), the HTML report is written exactly
once, as the last file-system event (after every screenshot write), with
one section per result in the input order; each section's image reference
is the literal prefix `screenshots/` followed by the screenshot's base
name, which coincides with the screenshot path expressed relative to the
report's location exactly when the batch is invoked with the default
`screenshots` directory. -/
theorem captures_report (dir : String) (env : Nat → StepEnv) (rnow : Nat → PyDateTime)
    (h : Heap) (input : List Nat)
    (henv : ∀ j, j < input.length → (env j).navOk = true ∧ (env j).shotOk = true)
    (hsp0 : ∀ i, (h i).screenshot_path = none)
    (hfn : ∀ i f, (h i).filename = some f → '/' ∉ f.data) :
    (captures dir env rnow h input).trace =
      (runBatchAux dir env 0 h input).writes.map BEvent.shotWrite ++
        [BEvent.reportWrite (input.enum.map (fun p =>
          renderSection (fmtRender (rnow p.1))
            ((captures dir env rnow h input).heap p.2)))] ∧
    (((captures dir env rnow h input).trace.filter isReportWrite).length = 1) ∧
    (∀ j, j < input.length →
      (renderSection (fmtRender (rnow j))
        ((captures dir env rnow h input).heap (input.getD j 0))).img_src =
        "screenshots/" ++ pathName
          ((((captures dir env rnow h input).heap (input.getD j 0)).screenshot_path).getD
            "")) ∧
    (dir = "screenshots" → ∀ j, j < input.length →
      (renderSection (fmtRender (rnow j))
        ((captures dir env rnow h input).heap (input.getD j 0))).img_src =
        relativeToReportDir
          ((((captures dir env rnow h input).heap (input.getD j 0)).screenshot_path).getD
            "")) := by
  have henv0 : envOkFrom env 0 input.length := by
    intro j hj; simpa using henv j hj
  obtain ⟨hres, hok, _, _⟩ := runBatchAux_res dir env input 0 h henv0
  have hceq := captures_ok_eq dir env rnow h input hok
  have hinv0 : HeapPathsOk dir h := by
    intro i
    refine ⟨fun f hf => hfn i f hf, fun p hp => ?_⟩
    rw [hsp0 i] at hp
    exact Option.noConfusion hp
  have hinv := runBatchAux_pathsOk dir env input 0 h hinv0
  refine ⟨?_, ?_, ?_, ?_⟩
  · rw [hceq]
    simp only [hres]
  · rw [hceq]
    simp only [List.filter_append, filter_report_map_shot, isReportWrite, List.length_append]
    rfl
  · intro j hj
    rfl
  · intro hdir j hj
    subst hdir
    have hheap : (captures "screenshots" env rnow h input).heap =
        (runBatchAux "screenshots" env 0 h input).heap := by rw [hceq]
    rw [hheap]
    have hsome := runBatchAux_shot_set "screenshots" env input 0 h henv0 j hj
    obtain ⟨p, hp2⟩ := Option.isSome_iff_exists.mp hsome
    obtain ⟨f, hfns, hpf⟩ := (hinv (input.getD j 0)).2 p hp2
    show "screenshots/" ++ pathName
        ((((runBatchAux "screenshots" env 0 h input).heap
          (input.getD j 0)).screenshot_path).getD "") =
      relativeToReportDir
        ((((runBatchAux "screenshots" env 0 h input).heap
          (input.getD j 0)).screenshot_path).getD "")
    rw [hp2]
    simp only [Option.getD_some, relativeToReportDir]
    rw [hpf, pathName_append "screenshots" f hfns,
      show ("screenshots" : String) ++ "/" = "screenshots/" by decide]

/-- C5 witness: a one-request batch into the default `screenshots`
directory writes the report once, last, and its section's image reference
equals the screenshot path relative to the report's location. -/
theorem captures_report_witness :
    ((∀ j, j < ([0] : List Nat).length →
        (wEnvOk j).navOk = true ∧ (wEnvOk j).shotOk = true) ∧
      (∀ i, (wHeapA i).screenshot_path = none) ∧
      (∀ i f, (wHeapA i).filename = some f → '/' ∉ f.data)) ∧
    (((captures "screenshots" wEnvOk wRnow wHeapA [0]).trace.filter
      isReportWrite).length = 1) ∧
    (renderSection (fmtRender (wRnow 0))
      ((captures "screenshots" wEnvOk wRnow wHeapA [0]).heap
        (([0] : List Nat).getD 0 0))).img_src =
      relativeToReportDir
        ((((captures "screenshots" wEnvOk wRnow wHeapA [0]).heap
          (([0] : List Nat).getD 0 0)).screenshot_path).getD "") := by
  have hfn : ∀ i f, (wHeapA i).filename = some f → '/' ∉ f.data := by
    intro i f hf
    have : f = "a.png" := by
      have h2 : some "a.png" = some f := hf
      exact (Option.some.injEq _ _ ▸ h2).symm
    rw [this]
    decide
  refine ⟨⟨by decide, fun i => rfl, hfn⟩, ?_, ?_⟩
  · exact (captures_report "screenshots" wEnvOk wRnow wHeapA [0] (by decide)
      (fun i => rfl) hfn).2.1
  · exact (captures_report "screenshots" wEnvOk wRnow wHeapA [0] (by decide)
      (fun i => rfl) hfn).2.2.2 rfl 0 (by decide)

end CaptureAuto
